import Mathlib

/-!
Verification of the Ook! interpreter (`src/code/ook.rs`).

The repository's core is a `macro_rules` macro that compiles an Ook!
program (a Brainfuck-isomorphic instruction stream) into Rust code:

* the generated `fn ook()` allocates a tape of `MEM_SIZE = 30_000`
  `u8` cells initialised to zero and a pointer `_i = 0`;
* the `@e` rules dispatch on the next two-token instruction, producing
  pointer moves (with wraparound), `wrapping_add`/`wrapping_sub` cell
  updates (`_inc`/`_dec`), byte output, byte input (failing with the
  "ran out of input" error when `read` returns `Ok(0)`), and
  `while a[i] != 0 { body }` loops;
* the `@x` rules extract the loop body (buffering tokens while tracking
  nesting depth) and the `@s` rules skip past the matching loop end to
  resume with the remaining program.

This file shallowly embeds that program.  Machine integers (`u8`,
`usize`) are modelled as `Nat` with explicit `% 256` / `% MEM_SIZE`
where the Rust code wraps.  The compile-time macro expansion is
modelled by `expand`, which either produces the structured code the
macro would generate or `none` when no macro rule matches (in the
source this manifests as the catch-all rule recursing until the
recursion limit: compilation fails and no program is produced).
Run-time execution of the generated code is modelled by `run`, a
fuel-indexed interpreter (the fuel only bounds the number of steps; the
generated Rust code has no such bound and may diverge).
-/

namespace Ook

/-- Tape length, from `const MEM_SIZE: usize = 30_000;`. -/
def MEM_SIZE : Nat := 30000

/-- The eight two-token instructions recognised by the `@e` dispatch
rules of the `Ook!` macro:
`Ook. Ook?` (moveRight), `Ook? Ook.` (moveLeft), `Ook. Ook.` (inc),
`Ook! Ook!` (dec), `Ook! Ook.` (output), `Ook. Ook!` (input),
`Ook! Ook?` (loopStart), `Ook? Ook!` (loopEnd). -/
inductive Instr where
  | moveRight
  | moveLeft
  | inc
  | dec
  | output
  | input
  | loopStart
  | loopEnd
deriving DecidableEq, Repr

/-- Machine state of the generated `fn ook()`: the tape `_a` (a vector
of `u8` cells, modelled as `Nat`s kept below 256), the pointer `_i`,
the remaining bytes of the input source `_r`, and the bytes written so
far to the output sink `_w`. -/
structure OokState where
  tape : List Nat
  ptr : Nat
  inp : List Nat
  out : List Nat
deriving DecidableEq, Repr

/-- The cell under the pointer, `a[i]`. -/
def cur (st : OokState) : Nat := st.tape.getD st.ptr 0

/-- Pointer move of the `Ook. Ook?` rule: `$i = ($i + 1) % MEM_SIZE;`. -/
def moveRightPtr (p : Nat) : Nat := (p + 1) % MEM_SIZE

/-- Pointer move of the `Ook? Ook.` rule:
`$i = if $i == 0 { MEM_SIZE } else { $i } - 1;`. -/
def moveLeftPtr (p : Nat) : Nat := (if p = 0 then MEM_SIZE else p) - 1

/-- Cell update of `fn _inc`: `*c = c.wrapping_add(1)` on a `u8`. -/
def incCell (c : Nat) : Nat := (c + 1) % 256

/-- Cell update of `fn _dec`: `*c = c.wrapping_sub(1)` on a `u8`
(for a cell value below 256, wrapping subtraction of 1 is addition of
255 modulo 256). -/
def decCell (c : Nat) : Nat := (c + 255) % 256

/-- The only run-time error of the interpreter: `fn _re` builds the
`io::Error` with message "ran out of input", raised when `read`
returns `Ok(0)`. -/
inductive RunErr where
  | inputExhausted
deriving DecidableEq, Repr

/-- Effect of one non-loop instruction on the machine state, from the
bodies of the `@e` dispatch rules.  On failure the error is paired
with the state at the moment of failure (in the source the state is a
set of local variables at the failing statement).  `loopStart` and
`loopEnd` have no `@e` primitive rule of their own (loops are handled
structurally) and are identities here; `expand` never places them
under `Code.prim`. -/
def execPrim : Instr → OokState → Except (RunErr × OokState) OokState
  | .moveRight, st => .ok { st with ptr := moveRightPtr st.ptr }
  | .moveLeft, st => .ok { st with ptr := moveLeftPtr st.ptr }
  | .inc, st => .ok { st with tape := st.tape.set st.ptr (incCell (cur st)) }
  | .dec, st => .ok { st with tape := st.tape.set st.ptr (decCell (cur st)) }
  | .output, st => .ok { st with out := st.out ++ [cur st] }
  | .input, st =>
      match st.inp with
      | [] => .error (.inputExhausted, st)
      | b :: rest => .ok { st with tape := st.tape.set st.ptr (b % 256), inp := rest }
  | .loopStart, st => .ok st
  | .loopEnd, st => .ok st

/-- Loop extraction, from the `@x` rules (and, for the second
component, the `@s` rules, which perform the same scan without
buffering): scan the tokens after a `loopStart`, tracking the nesting
depth `d`; return the buffered body tokens of the outer-most loop and
the tokens following its matching `loopEnd`.  `none` when the scan
runs out of tokens (in the source, no `@x`/`@s` rule matches and
expansion fails). -/
def splitLoop : List Instr → Nat → Option (List Instr × List Instr)
  | [], _ => none
  | .loopEnd :: tl, 0 => some ([], tl)
  | .loopEnd :: tl, d + 1 => (splitLoop tl d).map fun p => (.loopEnd :: p.1, p.2)
  | .loopStart :: tl, d => (splitLoop tl (d + 1)).map fun p => (.loopStart :: p.1, p.2)
  | .moveRight :: tl, d => (splitLoop tl d).map fun p => (.moveRight :: p.1, p.2)
  | .moveLeft :: tl, d => (splitLoop tl d).map fun p => (.moveLeft :: p.1, p.2)
  | .inc :: tl, d => (splitLoop tl d).map fun p => (.inc :: p.1, p.2)
  | .dec :: tl, d => (splitLoop tl d).map fun p => (.dec :: p.1, p.2)
  | .output :: tl, d => (splitLoop tl d).map fun p => (.output :: p.1, p.2)
  | .input :: tl, d => (splitLoop tl d).map fun p => (.input :: p.1, p.2)

lemma splitLoop_decomp :
    ∀ (tl : List Instr) (d : Nat) (b r : List Instr),
      splitLoop tl d = some (b, r) → tl = b ++ Instr.loopEnd :: r := by
  intro tl
  induction tl with
  | nil => intro d b r h; simp [splitLoop] at h
  | cons i tl ih =>
    intro d b r h
    cases i <;> [skip; skip; skip; skip; skip; skip; skip; cases d] <;>
      simp only [splitLoop, Option.map_eq_some'] at h
    case loopEnd.zero =>
      obtain ⟨rfl, rfl⟩ := h
      simp
    all_goals
      obtain ⟨⟨b', r'⟩, hsp, h⟩ := h
      obtain ⟨rfl, rfl⟩ := Prod.mk.injEq .. ▸ h
      simp [ih _ _ _ hsp]

/-- The code generated by macro expansion: the empty expansion, a
primitive statement followed by the rest of the expansion, or a
`while a[i] != 0` loop with an extracted body followed by the
expansion of the tokens after the matching loop end. -/
inductive Code where
  | done : Code
  | prim : Instr → Code → Code
  | loop : Code → Code → Code
deriving DecidableEq, Repr

/-- Compile-time expansion of an instruction stream by the `@e`
dispatch rules.  A `loopStart` expands to a `while` whose body is the
`@x`-extracted token buffer and whose continuation is the program
after the `@s`-skipped matching `loopEnd`.  A `loopEnd` reaching the
dispatcher has no matching rule, and a `loopStart` whose scan finds no
matching `loopEnd` leaves `@x`/`@s` with no matching rule: in both
cases the macro's catch-all rule recurses forever, compilation fails,
and no program is produced — modelled by `none`. -/
def expand : List Instr → Option Code
  | [] => some .done
  | .loopStart :: tl =>
      match h : splitLoop tl 0 with
      | none => none
      | some (b, r) => do
          let cb ← expand b
          let cr ← expand r
          some (.loop cb cr)
  | .loopEnd :: _ => none
  | .moveRight :: tl => (expand tl).map (.prim .moveRight ·)
  | .moveLeft :: tl => (expand tl).map (.prim .moveLeft ·)
  | .inc :: tl => (expand tl).map (.prim .inc ·)
  | .dec :: tl => (expand tl).map (.prim .dec ·)
  | .output :: tl => (expand tl).map (.prim .output ·)
  | .input :: tl => (expand tl).map (.prim .input ·)
termination_by l => l.length
decreasing_by
  all_goals simp only [List.length_cons]
  · have hd := splitLoop_decomp tl 0 b r h
    subst hd
    simp
    omega
  · have hd := splitLoop_decomp tl 0 b r h
    subst hd
    simp
    omega
  all_goals omega

/-- Outcome of running generated code: normal termination with the
final state, an aborted run with the error and the state at the moment
of failure, or fuel exhaustion (the generated Rust code simply keeps
running; `spin` only marks that the given step bound did not suffice). -/
inductive RunOut where
  | ok : OokState → RunOut
  | fail : RunErr → OokState → RunOut
  | spin : RunOut
deriving DecidableEq, Repr

/-- Execution of generated code, one fuel unit per statement.  A
primitive statement applies its effect and continues, or aborts the
run at the first failure (the `try!` propagation in the source).  A
loop tests `a[i] != 0`: when the cell is zero, control continues with
the code after the matching loop end without touching the body; when
it is nonzero, the body runs and then the whole loop is retried, so
the test re-examines the (possibly changed) current cell. -/
def run : Nat → Code → OokState → RunOut
  | _, .done, st => .ok st
  | 0, .prim _ _, _ => .spin
  | 0, .loop _ _, _ => .spin
  | f + 1, .prim i k, st =>
      match execPrim i st with
      | .ok st' => run f k st'
      | .error p => .fail p.1 p.2
  | f + 1, .loop b k, st =>
      if cur st = 0 then run f k st
      else
        match run f b st with
        | .ok st' => run f (.loop b k) st'
        | r => r

/-- Initial state of `fn ook()`: a tape of `MEM_SIZE` zeroed cells
(`Vec` extended with `repeat(0).take(MEM_SIZE)`), pointer `_i = 0`,
the given input stream, nothing written yet. -/
def ookInit (inp : List Nat) : OokState :=
  { tape := List.replicate MEM_SIZE 0, ptr := 0, inp := inp, out := [] }

/-- Whole pipeline: expand the program (`none` when the macro fails to
compile it) and run the generated code from the initial state. -/
def ookRun (fuel : Nat) (prog : List Instr) (inp : List Nat) : Option RunOut :=
  (expand prog).map fun c => run fuel c (ookInit inp)

/-- The value `fn ook()` returns to its caller:
`Ok(_a)` — the final tape — on normal termination, or the bare
`io::Error` on failure (the state at failure is a set of local
variables that are dropped when the function returns).  A run that is
still going has returned nothing yet. -/
def callerResult : RunOut → Option (Except RunErr (List Nat))
  | .ok st => some (.ok st.tape)
  | .fail e _ => some (.error e)
  | .spin => none

/-- The tape at the moment of failure (a semantic observation on the
machine, not available to the caller). -/
def failTape : RunOut → Option (List Nat)
  | .fail _ st => some st.tape
  | _ => none

/-- The output bytes of a normally terminated run. -/
def outOf : RunOut → Option (List Nat)
  | .ok st => some st.out
  | _ => none

/-- The cell under the pointer after a normally terminated run. -/
def curOf : RunOut → Option Nat
  | .ok st => some (cur st)
  | _ => none

/-- Position of the first `loopEnd` with no matching preceding
`loopStart` (scanning with a depth counter), `none` when every
`loopEnd` is matched.  This formalises the claims' phrase "a LoopEnd
instruction with no matching preceding LoopStart". -/
def firstDip : List Instr → Nat → Option Nat
  | [], _ => none
  | .loopEnd :: _, 0 => some 0
  | .loopEnd :: tl, d + 1 => (firstDip tl d).map (· + 1)
  | .loopStart :: tl, d => (firstDip tl (d + 1)).map (· + 1)
  | .moveRight :: tl, d => (firstDip tl d).map (· + 1)
  | .moveLeft :: tl, d => (firstDip tl d).map (· + 1)
  | .inc :: tl, d => (firstDip tl d).map (· + 1)
  | .dec :: tl, d => (firstDip tl d).map (· + 1)
  | .output :: tl, d => (firstDip tl d).map (· + 1)
  | .input :: tl, d => (firstDip tl d).map (· + 1)

section Arith

/-- Iterating a function that acts as "add `a`, reduce mod `n`" on the
interval `[0, n)` adds `k * a` (mod `n`) after `k` steps. -/
lemma iter_add_mod (n a : Nat) (hn : 0 < n) (f : Nat → Nat)
    (hf : ∀ p, p < n → f p = (p + a) % n) :
    ∀ (k p : Nat), p < n → f^[k] p = (p + k * a) % n := by
  intro k
  induction k with
  | zero => intro p hp; simpa using (Nat.mod_eq_of_lt hp).symm
  | succ k ih =>
    intro p hp
    rw [Function.iterate_succ_apply, hf p hp, ih _ (Nat.mod_lt _ hn),
      Nat.mod_add_mod]
    congr 1
    ring

lemma moveRightPtr_formula (p : Nat) :
    moveRightPtr p = (p + 1) % MEM_SIZE := rfl

lemma moveLeftPtr_formula (p : Nat) (hp : p < MEM_SIZE) :
    moveLeftPtr p = (p + (MEM_SIZE - 1)) % MEM_SIZE := by
  unfold moveLeftPtr MEM_SIZE
  unfold MEM_SIZE at hp
  split <;> omega

end Arith

/-- C3: for every starting pointer value in `[0, MEM_SIZE)`, applying
the `MoveRight` pointer update `MEM_SIZE` times returns the pointer to
the same index, and likewise for `MoveLeft`; and every single move
keeps the pointer inside `[0, MEM_SIZE)`. -/
theorem C3_pointer_cyclic (p : Nat) (hp : p < MEM_SIZE) :
    moveRightPtr^[MEM_SIZE] p = p ∧ moveLeftPtr^[MEM_SIZE] p = p ∧
    moveRightPtr p < MEM_SIZE ∧ moveLeftPtr p < MEM_SIZE := by
  have hn : 0 < MEM_SIZE := by norm_num [MEM_SIZE]
  have hR := iter_add_mod MEM_SIZE 1 hn moveRightPtr
    (fun q _ => moveRightPtr_formula q) MEM_SIZE p hp
  have hL := iter_add_mod MEM_SIZE (MEM_SIZE - 1) hn moveLeftPtr
    (fun q hq => moveLeftPtr_formula q hq) MEM_SIZE p hp
  refine ⟨?_, ?_, Nat.mod_lt _ hn, ?_⟩
  · rw [hR, Nat.mul_one, Nat.add_mod_right, Nat.mod_eq_of_lt hp]
  · rw [hL, Nat.add_mul_mod_self_left, Nat.mod_eq_of_lt hp]
  · unfold moveLeftPtr MEM_SIZE
    unfold MEM_SIZE at hp
    split <;> omega

/-- C3 witness at pointer 0. -/
theorem C3_pointer_cyclic_witness :
    moveRightPtr^[MEM_SIZE] 0 = 0 ∧ moveLeftPtr^[MEM_SIZE] 0 = 0 ∧
    moveRightPtr 0 < MEM_SIZE ∧ moveLeftPtr 0 < MEM_SIZE :=
  C3_pointer_cyclic 0 (by norm_num [MEM_SIZE])

/-- C4: on `[0, MEM_SIZE)` the code's `MoveLeft` update
`(if p = 0 then MEM_SIZE else p) - 1` agrees with the spec's formula
`(p − 1 + tape length) mod tape length` (stated over `Int`, and in the
equivalent `Nat` form), and the code's `MoveRight` update is literally
`(p + 1) % MEM_SIZE`. -/
theorem C4_move_formulas (p : Nat) (hp : p < MEM_SIZE) :
    moveLeftPtr p = (p + MEM_SIZE - 1) % MEM_SIZE ∧
    (moveLeftPtr p : Int) = ((p : Int) - 1 + MEM_SIZE) % MEM_SIZE ∧
    moveRightPtr p = (p + 1) % MEM_SIZE := by
  refine ⟨?_, ?_, rfl⟩
  · unfold moveLeftPtr MEM_SIZE
    unfold MEM_SIZE at hp
    split <;> omega
  · have h0 : (moveLeftPtr p : Int) = (if p = 0 then (MEM_SIZE : Int) else p) - 1 := by
      unfold moveLeftPtr
      split <;> omega
    rw [h0]
    unfold MEM_SIZE
    unfold MEM_SIZE at hp
    split <;> omega

/-- C4 witness at pointers 0 and (via the theorem) a nonzero point. -/
theorem C4_move_formulas_witness :
    moveLeftPtr 0 = (0 + MEM_SIZE - 1) % MEM_SIZE ∧
    (moveLeftPtr 0 : Int) = ((0 : Int) - 1 + MEM_SIZE) % MEM_SIZE ∧
    moveRightPtr 0 = (0 + 1) % MEM_SIZE :=
  C4_move_formulas 0 (by norm_num [MEM_SIZE])

/-- C5: cell arithmetic never traps and wraps modulo 256: starting
from any 8-bit cell value, 256 consecutive `_inc` updates return the
cell to its original value, likewise 256 consecutive `_dec` updates,
and every single update stays an 8-bit value. -/
theorem C5_cell_wrap (c : Nat) (hc : c < 256) :
    incCell^[256] c = c ∧ decCell^[256] c = c ∧
    incCell c < 256 ∧ decCell c < 256 := by
  have h256 : (0 : Nat) < 256 := by norm_num
  have hI := iter_add_mod 256 1 h256 incCell (fun q _ => rfl) 256 c hc
  have hD := iter_add_mod 256 255 h256 decCell (fun q _ => rfl) 256 c hc
  refine ⟨?_, ?_, Nat.mod_lt _ h256, Nat.mod_lt _ h256⟩
  · rw [hI, Nat.mul_one, Nat.add_mod_right, Nat.mod_eq_of_lt hc]
  · rw [hD, Nat.add_mul_mod_self_left, Nat.mod_eq_of_lt hc]

/-- C5 witness at cell value 255 (the overflow boundary). -/
theorem C5_cell_wrap_witness :
    incCell^[256] 255 = 255 ∧ decCell^[256] 255 = 255 ∧
    incCell 255 < 256 ∧ decCell 255 < 256 :=
  C5_cell_wrap 255 (by norm_num)

/-- C10: the `Output` instruction writes exactly the single byte
`Cell[Pointer]` to the output sink and modifies no machine state: the
tape, the pointer and the remaining input are unchanged, both for the
primitive effect and for a run executing it. -/
theorem C10_output_frame (f : Nat) (k : Code) (st : OokState) :
    execPrim Instr.output st =
      Except.ok { tape := st.tape, ptr := st.ptr, inp := st.inp,
                  out := st.out ++ [cur st] } ∧
    run (f + 1) (Code.prim Instr.output k) st =
      run f k { st with out := st.out ++ [cur st] } :=
  ⟨rfl, rfl⟩

/-- C2: executing `Input` when the input source yields zero bytes
fails with the input-exhausted error and the run stops at once (the
result of the run is the immediate failure, whatever code `k` was
still to execute); when the source yields a byte, that byte is stored
into `Cell[Pointer]` and the rest of the input remains. -/
theorem C2_input (f : Nat) (k : Code) (st : OokState) :
    (st.inp = [] →
      execPrim Instr.input st = Except.error (RunErr.inputExhausted, st) ∧
      run (f + 1) (Code.prim Instr.input k) st =
        RunOut.fail RunErr.inputExhausted st) ∧
    (∀ b rest, st.inp = b :: rest →
      execPrim Instr.input st =
        Except.ok { st with tape := st.tape.set st.ptr (b % 256), inp := rest }) := by
  obtain ⟨tp, pt, ip, ot⟩ := st
  constructor
  · intro h
    cases h
    exact ⟨rfl, rfl⟩
  · intro b rest h
    cases h
    rfl

/-- C2 witness: an empty input source makes a run of `Input` fail
immediately; a one-byte source stores the byte in `Cell[0]`. -/
theorem C2_input_witness :
    run 1 (Code.prim Instr.input Code.done) (ookInit []) =
      RunOut.fail RunErr.inputExhausted (ookInit []) ∧
    execPrim Instr.input (ookInit [65]) =
      Except.ok { ookInit [65] with
        tape := (ookInit [65]).tape.set (ookInit [65]).ptr (65 % 256),
        inp := [] } :=
  ⟨((C2_input 0 Code.done (ookInit [])).1 rfl).2,
   (C2_input 0 Code.done (ookInit [65])).2 65 [] rfl⟩

/-- C7: every run starts with a fresh tape of exactly 30,000 cells all
initialised to zero, the pointer at index 0 and nothing yet written;
and on successful completion the caller receives the final tape
contents. -/
theorem C7_init_and_result (f : Nat) (c : Code) (inp : List Nat) (st' : OokState)
    (h : run f c (ookInit inp) = RunOut.ok st') :
    (ookInit inp).tape = List.replicate 30000 0 ∧
    (ookInit inp).tape.length = 30000 ∧
    MEM_SIZE = 30000 ∧
    (∀ j, (ookInit inp).tape.getD j 0 = 0) ∧
    (ookInit inp).ptr = 0 ∧
    (ookInit inp).out = [] ∧
    callerResult (run f c (ookInit inp)) = some (Except.ok st'.tape) := by
  refine ⟨rfl, by simp only [ookInit, List.length_replicate, MEM_SIZE], rfl, ?_,
    rfl, rfl, by rw [h]; rfl⟩
  intro j
  simp only [ookInit, List.getD_eq_getElem?_getD, List.getElem?_replicate]
  split <;> rfl

/-- C7 witness: the empty program terminates at once and returns the
fresh all-zero tape. -/
theorem C7_init_and_result_witness :
    (ookInit []).tape = List.replicate 30000 0 ∧
    (ookInit []).tape.length = 30000 ∧
    MEM_SIZE = 30000 ∧
    (∀ j, (ookInit []).tape.getD j 0 = 0) ∧
    (ookInit []).ptr = 0 ∧
    (ookInit []).out = [] ∧
    callerResult (run 1 Code.done (ookInit [])) =
      some (Except.ok (ookInit []).tape) :=
  C7_init_and_result 1 Code.done [] (ookInit []) rfl

/-- C1: a `loopStart` expands to a loop whose body is the extracted
tokens up to the matching `loopEnd` and whose continuation `cr` is the
program after that matching `loopEnd`.  Executing it with
`Cell[Pointer] = 0` transfers control to the continuation after the
matching `loopEnd` — no instruction of the body executes; with
`Cell[Pointer] ≠ 0` the body executes, and when the body finishes
normally control returns to the loop head, so the zero test is applied
again to the (possibly changed) current cell before each further
iteration. -/
theorem C1_loop_semantics (f : Nat) (tl body rest : List Instr)
    (cb cr : Code) (st : OokState)
    (hsplit : splitLoop tl 0 = some (body, rest))
    (hb : expand body = some cb) (hr : expand rest = some cr) :
    expand (Instr.loopStart :: tl) = some (Code.loop cb cr) ∧
    (cur st = 0 → run (f + 1) (Code.loop cb cr) st = run f cr st) ∧
    (cur st ≠ 0 → run (f + 1) (Code.loop cb cr) st =
      match run f cb st with
      | RunOut.ok st' => run f (Code.loop cb cr) st'
      | r => r) := by
  refine ⟨?_, ?_, ?_⟩
  · simp only [expand]
    split
    · next heq => rw [hsplit] at heq; cases heq
    · next b' r' heq =>
        rw [hsplit] at heq
        obtain ⟨rfl, rfl⟩ := Prod.mk.injEq .. ▸ Option.some.inj heq
        simp [hb, hr]
  · intro h0
    simp [run, h0]
  · intro h0
    simp [run, h0]

/-- C1 witness: the empty loop `loopStart, loopEnd` on a fresh (zero)
cell: the body is skipped and control continues after the matching
`loopEnd`. -/
theorem C1_loop_semantics_witness :
    expand (Instr.loopStart :: [Instr.loopEnd]) =
      some (Code.loop Code.done Code.done) ∧
    (cur (ookInit []) = 0 →
      run 1 (Code.loop Code.done Code.done) (ookInit []) =
        run 0 Code.done (ookInit [])) ∧
    (cur (ookInit []) ≠ 0 →
      run 1 (Code.loop Code.done Code.done) (ookInit []) =
        match run 0 Code.done (ookInit []) with
        | RunOut.ok st' => run 0 (Code.loop Code.done Code.done) st'
        | r => r) :=
  C1_loop_semantics 0 [Instr.loopEnd] [] [] Code.done Code.done
    (ookInit []) rfl (by simp [expand]) (by simp [expand])

/-- The program of end-to-end scenario 2:
`Increment, Increment, Increment, LoopStart, Decrement, Output, LoopEnd`. -/
def prog6 : List Instr :=
  [.inc, .inc, .inc, .loopStart, .dec, .output, .loopEnd]

/-- The code the macro generates for `prog6`. -/
def code6 : Code :=
  .prim .inc (.prim .inc (.prim .inc
    (.loop (.prim .dec (.prim .output .done)) .done)))

/-- C6: running `Increment×3, LoopStart, Decrement, Output, LoopEnd`
on a fresh tape emits exactly the bytes 2, 1, 0 in that order and
leaves the current cell at 0. -/
theorem C6_countdown :
    expand prog6 = some code6 ∧
    (ookRun 30 prog6 []).bind outOf = some [2, 1, 0] ∧
    (ookRun 30 prog6 []).bind curOf = some 0 := by
  have he : expand prog6 = some code6 := by
    simp [prog6, code6, expand, splitLoop]
  refine ⟨he, ?_, ?_⟩ <;> simp only [ookRun, he, Option.map_some'] <;> rfl

/-- C8 counterexample: the caller-visible outcome of a failed run is
the bare error value.  Two runs that fail in different machine states
(here: tapes differing in cell 0) produce identical caller results, so
no function of what the caller receives can recover the state at
failure — the claim that the state is reported to the caller is false. -/
theorem C8_counterexample :
    callerResult (run 5 (Code.prim Instr.input Code.done) (ookInit [])) =
      callerResult
        (run 5 (Code.prim Instr.inc (Code.prim Instr.input Code.done)) (ookInit [])) ∧
    (failTape (run 5 (Code.prim Instr.input Code.done) (ookInit []))).map
      (fun t => t.getD 0 0) = some 0 ∧
    (failTape (run 5 (Code.prim Instr.inc (Code.prim Instr.input Code.done))
      (ookInit []))).map (fun t => t.getD 0 0) = some 1 ∧
    ¬ ∃ recover : Option (Except RunErr (List Nat)) → List Nat,
        ∀ (f : Nat) (c : Code) (st st' : OokState) (e : RunErr),
          run f c st = RunOut.fail e st' →
          recover (callerResult (run f c st)) = st'.tape := by
  refine ⟨rfl, rfl, rfl, ?_⟩
  rintro ⟨recover, hrec⟩
  have h1 := hrec 5 (Code.prim Instr.input Code.done) (ookInit [])
    (ookInit []) RunErr.inputExhausted rfl
  have h2 := hrec 5 (Code.prim Instr.inc (Code.prim Instr.input Code.done))
    (ookInit [])
    { ookInit [] with tape := (ookInit []).tape.set 0 (incCell 0) }
    RunErr.inputExhausted rfl
  have h3 : (0 : Nat) = 1 :=
    congrArg (fun t => List.getD t 0 0) (h1.symm.trans h2)
  exact absurd h3 (by decide)

/-- C8 (amended): when a run fails with the input-exhausted error, the
machine state at the moment of failure exists in the semantics (its
tape is observable there), but the value returned to the caller is the
bare error: the state is not reported along with it. -/
theorem C8_failure_reporting (f : Nat) (c : Code) (st st' : OokState)
    (e : RunErr) (h : run f c st = RunOut.fail e st') :
    callerResult (run f c st) = some (Except.error e) ∧
    failTape (run f c st) = some st'.tape := by
  rw [h]
  exact ⟨rfl, rfl⟩

/-- C8 witness: a run of a single `Input` on empty input fails and the
caller receives exactly the error. -/
theorem C8_failure_reporting_witness :
    callerResult (run 1 (Code.prim Instr.input Code.done) (ookInit [])) =
      some (Except.error RunErr.inputExhausted) ∧
    failTape (run 1 (Code.prim Instr.input Code.done) (ookInit [])) =
      some (ookInit []).tape :=
  C8_failure_reporting 1 (Code.prim Instr.input Code.done) (ookInit [])
    (ookInit []) RunErr.inputExhausted rfl

section Validation

/-- The body scan of a `loopStart` consumes exactly the tokens up to
the first `loopEnd` lying at the scan's base depth; positions of
unmatched `loopEnd`s in the remainder shift by the consumed length. -/
lemma splitLoop_firstDip :
    ∀ (tl : List Instr) (d : Nat) (b r : List Instr),
      splitLoop tl d = some (b, r) →
      firstDip tl (d + 1) = (firstDip r 0).map fun m => b.length + 1 + m := by
  intro tl
  induction tl with
  | nil => intro d b r h; simp [splitLoop] at h
  | cons i tl ih =>
    intro d b r h
    cases i <;> [skip; skip; skip; skip; skip; skip; skip; cases d] <;>
      simp only [splitLoop, Option.map_eq_some'] at h
    case loopEnd.zero =>
      obtain ⟨rfl, rfl⟩ := h
      simp only [firstDip, List.length_nil]
      congr 1
      funext m
      omega
    all_goals
      obtain ⟨⟨b', r'⟩, hsp, heq⟩ := h
      obtain ⟨rfl, rfl⟩ := Prod.mk.injEq .. ▸ heq
      simp only [firstDip, ih _ _ _ hsp, Option.map_map, List.length_cons]
      congr 1
      funext m
      simp only [Function.comp_apply]
      omega

/-- A program the macro expands successfully has no `loopEnd` without
a matching preceding `loopStart`. -/
lemma expand_ok_firstDip :
    ∀ (n : Nat) (l : List Instr), l.length ≤ n →
      ∀ c, expand l = some c → firstDip l 0 = none := by
  intro n
  induction n with
  | zero =>
    intro l hl c _
    have : l = [] := List.length_eq_zero.mp (Nat.le_zero.mp hl)
    subst this
    simp [firstDip]
  | succ n ih =>
    intro l hl c hc
    cases l with
    | nil => simp [firstDip]
    | cons i tl =>
      cases i
      case loopEnd => simp [expand] at hc
      case loopStart =>
        simp only [expand] at hc
        split at hc
        · cases hc
        · next b r hsp =>
            obtain ⟨cb, hcb, hc2⟩ := Option.bind_eq_some.mp hc
            obtain ⟨cr, hcr, _⟩ := Option.bind_eq_some.mp hc2
            have hdec := splitLoop_decomp tl 0 b r hsp
            have hlen : r.length ≤ n := by
              subst hdec
              simp only [List.length_cons, List.length_append,
                List.length_cons] at hl
              omega
            have hr0 : firstDip r 0 = none := ih r hlen cr hcr
            simp only [firstDip, splitLoop_firstDip tl 0 b r hsp, hr0,
              Option.map_none']
      all_goals
        simp only [expand, Option.map_eq_some'] at hc
        obtain ⟨c', hc', _⟩ := hc
        have : firstDip tl 0 = none := by
          apply ih tl _ c' hc'
          simp only [List.length_cons] at hl
          omega
        simp [firstDip, this]

/-- The position `firstDip` returns really is a `loopEnd`. -/
lemma firstDip_get :
    ∀ (l : List Instr) (d j : Nat), firstDip l d = some j →
      l.get? j = some Instr.loopEnd := by
  intro l
  induction l with
  | nil => intro d j h; simp [firstDip] at h
  | cons i tl ih =>
    intro d j h
    cases i <;> [skip; skip; skip; skip; skip; skip; skip; cases d] <;>
      simp only [firstDip, Option.map_eq_some'] at h
    case loopEnd.zero =>
      obtain ⟨rfl⟩ := h
      rfl
    case loopEnd.succ d =>
      obtain ⟨j', hj', rfl⟩ := h
      simpa using ih d j' hj'
    case loopStart =>
      obtain ⟨j', hj', rfl⟩ := h
      simpa using ih (d + 1) j' hj'
    all_goals
      obtain ⟨j', hj', rfl⟩ := h
      simpa using ih d j' hj'

end Validation

/-- C9 (amended): a program containing a `loopEnd` with no matching
preceding `loopStart` (position `j` being the first such `loopEnd`) is
rejected at expansion time: the macro produces no program, so the
execution engine is never invoked — for no amount of fuel and no input
does any run of the program exist. -/
theorem C9_unmatched_rejected (P : List Instr) (j : Nat)
    (h : firstDip P 0 = some j) :
    P.get? j = some Instr.loopEnd ∧
    expand P = none ∧
    ∀ (fuel : Nat) (inp : List Nat), ookRun fuel P inp = none := by
  have hend := firstDip_get P 0 j h
  have hnone : expand P = none := by
    cases hE : expand P with
    | none => rfl
    | some c =>
        have := expand_ok_firstDip P.length P (Nat.le_refl _) c hE
        rw [h] at this
        cases this
  exact ⟨hend, hnone, fun fuel inp => by simp [ookRun, hnone]⟩

/-- C9 witness: the one-instruction program `LoopEnd` is rejected. -/
theorem C9_unmatched_rejected_witness :
    [Instr.loopEnd].get? 0 = some Instr.loopEnd ∧
    expand [Instr.loopEnd] = none ∧
    ∀ (fuel : Nat) (inp : List Nat), ookRun fuel [Instr.loopEnd] inp = none :=
  C9_unmatched_rejected [Instr.loopEnd] 0 rfl

/-- C9 counterexample: the rejection carries no position.  Rejected
programs whose offending `loopEnd`s sit at different positions yield
the identical outcome (no generated program at all), so no function of
the validation outcome can identify the offending instruction's
position — the claim that an `UnmatchedLoop` error identifies that
position is false of the code. -/
theorem C9_counterexample :
    expand [Instr.loopEnd] = expand [Instr.moveRight, Instr.loopEnd] ∧
    firstDip [Instr.loopEnd] 0 = some 0 ∧
    firstDip [Instr.moveRight, Instr.loopEnd] 0 = some 1 ∧
    ¬ ∃ report : Option Code → Nat,
        ∀ (P : List Instr) (j : Nat), firstDip P 0 = some j →
          report (expand P) = j := by
  have e1 : expand [Instr.loopEnd] = none := by simp [expand]
  have e2 : expand [Instr.moveRight, Instr.loopEnd] = none := by simp [expand]
  refine ⟨by rw [e1, e2], rfl, rfl, ?_⟩
  rintro ⟨report, hrep⟩
  have h0 := hrep [Instr.loopEnd] 0 rfl
  have h1 := hrep [Instr.moveRight, Instr.loopEnd] 1 rfl
  rw [e1] at h0
  rw [e2] at h1
  omega

end Ook
